import Mathlib

/-!
A shallow embedding of the MIDI-to-chart converter (`midi_to_json_score` in
`main.py`).  Pure Lean translations of the conversion pipeline: the header
scan of track 0 (initial bpm and title), the merged-track event loop that
pairs note-on/note-off messages and records tempo changes, the final
`(tick, category)` stable sort, and the JSON rendering of the chart.
Machine integers are modelled as `Nat`/`Int` (Python integers are unbounded),
and `bpm` values as rationals (`round(x, 3)` is modelled as exact rational
rounding, half to even).
-/

namespace Organica

/-- `FORMAT_VERSION = 1` in `main.py`. -/
def FORMAT_VERSION : Nat := 1

/-- `NOTE_RANGE_START = 53` (MIDI note F3). -/
def NOTE_RANGE_START : Nat := 53

/-- `NOTE_RANGE_END = 59` (MIDI note B3). -/
def NOTE_RANGE_END : Nat := 59

/-- `CRITICAL_VELOCITY_THRESHOLD = 120`. -/
def CRITICAL_VELOCITY_THRESHOLD : Nat := 120

/-- `DEFAULT_OFFSET = 0`. -/
def DEFAULT_OFFSET : Nat := 0

/-- The kinds of MIDI message the converter inspects.  `setTempo` and
`trackName` are meta messages; `otherMeta` stands for every other meta
message (including `end_of_track`) and `otherChannel` for every other
channel message: the conversion loop ignores both, so only their delta
times matter. -/
inductive MsgKind where
  | setTempo (tempo : Nat)
  | trackName (name : String)
  | noteOn (note : Nat) (velocity : Nat)
  | noteOff (note : Nat) (velocity : Nat)
  | otherMeta
  | otherChannel
deriving DecidableEq

/-- A MIDI message: a delta time (ticks since the previous message of the
same track) and a payload. -/
structure Msg where
  time : Nat
  kind : MsgKind
deriving DecidableEq

/-- A MIDI file: the `ticks_per_beat` resolution and the list of tracks. -/
structure MidiFile where
  ticks_per_beat : Nat
  tracks : List (List Msg)
deriving DecidableEq

/-- `mido.tempo2bpm`: `(60 * 1000000) / tempo`, as an exact rational. -/
def tempo2bpm (tempo : Nat) : ℚ := 60000000 / (tempo : ℚ)

/-- Round a rational to the nearest integer, ties to even
(Python's `round`). -/
def roundHalfEven (q : ℚ) : ℤ :=
  if q - ⌊q⌋ < 1/2 then ⌊q⌋
  else if (1 : ℚ)/2 < q - ⌊q⌋ then ⌊q⌋ + 1
  else if ⌊q⌋ % 2 = 0 then ⌊q⌋ else ⌊q⌋ + 1

/-- `round(x, 3)`: round to three decimal places. -/
def round3 (q : ℚ) : ℚ := (roundHalfEven (q * 1000) : ℚ) / 1000

/-- The note types written into the output (`"normal"`, `"critical"`,
`"long"`). -/
inductive NoteType where
  | normal
  | critical
  | long
deriving DecidableEq

/-- The string stored in the `"type"` field of a note event. -/
def NoteType.str : NoteType → String
  | .normal => "normal"
  | .critical => "critical"
  | .long => "long"

/-- An element of the `notes` array of the output: either a tempo-change
event (`{"type": "_bpm", "tick": …, "bpm": …}`) or a note event
(`{"lane": …, "tick": …, "type": …}` with `"duration"` present exactly when
`duration = some d`).  `lane` is an `Int` because the code computes
`msg.note - NOTE_RANGE_START` with Python (signed) integers. -/
inductive ChartEvent where
  | bpm (tick : Nat) (bpm : ℚ)
  | note (lane : ℤ) (tick : Nat) (ntype : NoteType) (duration : Option ℤ)
deriving DecidableEq

/-- The `tick` field of an event. -/
def eventTick : ChartEvent → Nat
  | .bpm t _ => t
  | .note _ t _ _ => t

/-- Whether an event is a tempo event (`e['type'] == '_bpm'`). -/
def isBpmEvent : ChartEvent → Bool
  | .bpm _ _ => true
  | .note _ _ _ _ => false

/-- The `lane` field of a note event. -/
def noteLane : ChartEvent → Option ℤ
  | .bpm _ _ => none
  | .note l _ _ _ => some l

/-- The `duration` field of an event (`none` when absent). -/
def noteDuration : ChartEvent → Option ℤ
  | .bpm _ _ => none
  | .note _ _ _ d => d

/-- The secondary sort key: `0 if x['type'] == '_bpm' else 1`. -/
def sortCat (e : ChartEvent) : Nat := if isBpmEvent e then 0 else 1

/-- The sort comparison of line 111: lexicographic on
`(x['tick'], 0 if x['type'] == '_bpm' else 1)`. -/
def eventLE (a b : ChartEvent) : Bool :=
  decide (eventTick a < eventTick b ∨
    (eventTick a = eventTick b ∧ sortCat a ≤ sortCat b))

/-- The value stored in `active_notes` for a sounding pitch:
`{'tick': start_tick, 'velocity': velocity}`. -/
structure ActiveNote where
  tick : Nat
  velocity : Nat
deriving DecidableEq

/-- The mutable state of the conversion loop (lines 52–108):
the running absolute tick, the pitch → active-note dictionary, and the
`notes_data` list of emitted events. -/
structure ConvState where
  current_tick : Nat
  active_notes : Nat → Option ActiveNote
  notes_data : List ChartEvent

/-- `active_notes[note] = v` (dictionary write). -/
def setActive (f : Nat → Option ActiveNote) (k : Nat) (v : ActiveNote) :
    Nat → Option ActiveNote :=
  fun n => if n = k then some v else f n

/-- `active_notes.pop(note)` (dictionary removal). -/
def popActive (f : Nat → Option ActiveNote) (k : Nat) :
    Nat → Option ActiveNote :=
  fun n => if n = k then none else f n

/-- `e.get('type') == '_bpm' and e.get('tick') == t` for one event. -/
def isBpmAt (t : Nat) (e : ChartEvent) : Bool :=
  isBpmEvent e && (eventTick e == t)

/-- Line 62: `any(e.get('type') == '_bpm' and e.get('tick') == current_tick
for e in notes_data)`. -/
def hasBpmAt (events : List ChartEvent) (t : Nat) : Bool :=
  events.any (isBpmAt t)

/-- Lines 82–108: handling of a note-off (or velocity-0 note-on) for pitch
`note`, after `current_tick` has been advanced.  If the pitch has an active
note it is popped; a zero duration emits nothing; otherwise a note event is
appended, classified `long` when `duration > tpb`, else `critical`/`normal`
by the recorded velocity. -/
def stepOff (tpb : Nat) (note : Nat) (s : ConvState) : ConvState :=
  match s.active_notes note with
  | none => s
  | some start_note =>
    let active' := popActive s.active_notes note
    let duration : ℤ := (s.current_tick : ℤ) - (start_note.tick : ℤ)
    if duration = 0 then { s with active_notes := active' }
    else
      let note_type : NoteType :=
        if CRITICAL_VELOCITY_THRESHOLD ≤ start_note.velocity then .critical
        else .normal
      let ev : ChartEvent :=
        if (tpb : ℤ) < duration then
          .note ((note : ℤ) - (NOTE_RANGE_START : ℤ)) start_note.tick
            .long (some duration)
        else
          .note ((note : ℤ) - (NOTE_RANGE_START : ℤ)) start_note.tick
            note_type none
      { s with active_notes := active', notes_data := s.notes_data ++ [ev] }

/-- One iteration of the loop of lines 56–108: advance `current_tick` by the
message's delta time, then dispatch on the message kind. -/
def step (tpb : Nat) (s : ConvState) (msg : Msg) : ConvState :=
  let s := { s with current_tick := s.current_tick + msg.time }
  match msg.kind with
  | .setTempo tempo =>
    if hasBpmAt s.notes_data s.current_tick then s
    else if 0 < s.current_tick then
      { s with notes_data :=
          s.notes_data ++ [.bpm s.current_tick (round3 (tempo2bpm tempo))] }
    else s
  | .noteOn note velocity =>
    if 0 < velocity then
      if NOTE_RANGE_START ≤ note ∧ note ≤ NOTE_RANGE_END then
        { s with active_notes :=
            setActive s.active_notes note ⟨s.current_tick, velocity⟩ }
      else s
    else stepOff tpb note s
  | .noteOff note _ => stepOff tpb note s
  | .trackName _ => s
  | .otherMeta => s
  | .otherChannel => s

/-- `mido.midifiles.tracks._to_abstime`: replace each delta time by the
running absolute tick. -/
def toAbstime : Nat → List Msg → List Msg
  | _, [] => []
  | now, m :: rest =>
    { m with time := now + m.time } :: toAbstime (now + m.time) rest

/-- `mido.midifiles.tracks._to_reltime`: replace each absolute tick by the
delta from the previous message (the input is always sorted, so the `Nat`
truncated subtraction is exact). -/
def toReltime : Nat → List Msg → List Msg
  | _, [] => []
  | now, m :: rest => { m with time := m.time - now } :: toReltime m.time rest

/-- The comparison used by `messages.sort(key=lambda msg: msg.time)`. -/
def msgTimeLE (a b : Msg) : Bool := decide (a.time ≤ b.time)

/-- The merged stream in absolute time: concatenate the absolutised tracks
and stably sort by absolute tick (Python's `list.sort` is stable, as is
`List.mergeSort`; a stable sort by a fixed key is unique, so the two agree).
-/
def mergedAbs (tracks : List (List Msg)) : List Msg :=
  ((tracks.map (toAbstime 0)).flatten).mergeSort msgTimeLE

/-- `mido.merge_tracks`: the merged stream, back in delta time.
`fix_end_of_track` (which drops interior `end_of_track` meta messages while
preserving every other message's absolute tick, and appends one final
`end_of_track`) is not modelled: `end_of_track` is an `otherMeta` message
here, invisible to the conversion loop, and all other messages keep the
same absolute ticks either way. -/
def merge_tracks (tracks : List (List Msg)) : List Msg :=
  toReltime 0 (mergedAbs tracks)

/-- The header state of lines 39–49: `initial_bpm`, `title`,
`found_first_tempo`. -/
structure HeaderState where
  initial_bpm : ℚ
  title : String
  found_first_tempo : Bool
deriving DecidableEq

/-- One iteration of the metadata scan of lines 44–49. -/
def headerStep (h : HeaderState) (msg : Msg) : HeaderState :=
  let h :=
    match msg.kind with
    | .setTempo tempo =>
      if h.found_first_tempo then h
      else { h with initial_bpm := round3 (tempo2bpm tempo),
                    found_first_tempo := true }
    | _ => h
  match msg.kind with
  | .trackName name => { h with title := name }
  | _ => h

/-- The metadata scan over track 0, seeded with bpm 120 and the default
title (the input file's base name, passed in as a parameter here). -/
def scanHeader (default_title : String) (track0 : List Msg) : HeaderState :=
  track0.foldl headerStep ⟨120, default_title, false⟩

/-- The final chart object (`final_json`, lines 114–121). -/
structure Chart where
  version : Nat
  title : String
  bpm : ℚ
  tpb : Nat
  offset : Nat
  notes : List ChartEvent
deriving DecidableEq

/-- The initial loop state: tick 0, empty dictionary, empty list. -/
def initState : ConvState := ⟨0, fun _ => none, []⟩

/-- `notes_data` as it stands after the loop, before the sort of line 111. -/
def rawNotesData (tpb : Nat) (tracks : List (List Msg)) : List ChartEvent :=
  ((merge_tracks tracks).foldl (step tpb) initState).notes_data

/-- The whole conversion `midi_to_json_score` (lines 18–121), minus file
I/O: `default_title` stands for
`os.path.splitext(os.path.basename(midi_path))[0]`, and the metadata scan
reads track 0 (`mid.tracks[0]`; an input with no tracks raises in Python
and is modelled by the empty track here). -/
def midi_to_json_score (default_title : String) (mid : MidiFile) : Chart :=
  let tpb := mid.ticks_per_beat
  let header := scanHeader default_title (mid.tracks.headD [])
  { version := FORMAT_VERSION
    title := header.title
    bpm := header.initial_bpm
    tpb := tpb
    offset := DEFAULT_OFFSET
    notes := (rawNotesData tpb mid.tracks).mergeSort eventLE }

/-- The tempo value of a message when it is a tempo change at absolute tick
`t`. -/
def tempoAt (t : Nat) (m : Msg) : Option Nat :=
  if m.time = t then
    match m.kind with
    | .setTempo x => some x
    | _ => none
  else none

/-- The tempo values of all tempo-change messages at absolute tick `t`, in
stream order (over an absolute-time stream). -/
def tempoMsgsAt (t : Nat) (msgs : List Msg) : List Nat :=
  msgs.filterMap (tempoAt t)

/-- The first tempo change at absolute tick `t` in a delta-time stream
starting from absolute tick `now`. -/
def firstTempoFrom (t : Nat) : Nat → List Msg → Option Nat
  | _, [] => none
  | now, m :: rest =>
    match m.kind with
    | .setTempo tempo =>
      if now + m.time = t then some tempo
      else firstTempoFrom t (now + m.time) rest
    | _ => firstTempoFrom t (now + m.time) rest

/-- The `track_name` payloads of a track, in order. -/
def trackNames (msgs : List Msg) : List String :=
  msgs.filterMap fun m =>
    match m.kind with
    | .trackName n => some n
    | _ => none

/-- Plain structured data, as produced by parsing the output file
(`json.loads`): numbers, strings, arrays and objects.  Numbers are exact
rationals: every number the converter writes is an integer or a multiple of
1/1000, which the decimal text of the file represents exactly. -/
inductive Json where
  | num (q : ℚ)
  | str (s : String)
  | arr (elems : List Json)
  | obj (fields : List (String × Json))

/-- Look up a key in an object. -/
def Json.getField (j : Json) (k : String) : Option Json :=
  match j with
  | .obj fs => fs.lookup k
  | _ => none

/-- Read a JSON number as a `Nat`. -/
def Json.asNat (j : Json) : Option Nat :=
  match j with
  | .num q => if q.den = 1 ∧ 0 ≤ q.num then some q.num.toNat else none
  | _ => none

/-- Read a JSON number as an `Int`. -/
def Json.asInt (j : Json) : Option ℤ :=
  match j with
  | .num q => if q.den = 1 then some q.num else none
  | _ => none

/-- Read a JSON number as a rational. -/
def Json.asRat (j : Json) : Option ℚ :=
  match j with
  | .num q => some q
  | _ => none

/-- Read a JSON string. -/
def Json.asStr (j : Json) : Option String :=
  match j with
  | .str s => some s
  | _ => none

/-- Read a JSON array. -/
def Json.asArr (j : Json) : Option (List Json) :=
  match j with
  | .arr l => some l
  | _ => none

/-- Serialize one event, in the field order the code builds the dicts:
tempo events as `{"type", "tick", "bpm"}` (lines 63–67), note events as
`{"lane", "tick", "type"}` plus `"duration"` exactly when present
(lines 96–104). -/
def eventToJson : ChartEvent → Json
  | .bpm t b => .obj [("type", .str "_bpm"), ("tick", .num t), ("bpm", .num b)]
  | .note l t ty d =>
    .obj ([("lane", .num l), ("tick", .num t), ("type", .str ty.str)] ++
      match d with
      | some dur => [("duration", .num dur)]
      | none => [])

/-- Serialize a chart in the field order of lines 114–121. -/
def chartToJson (c : Chart) : Json :=
  .obj [("version", .num c.version), ("title", .str c.title),
    ("bpm", .num c.bpm), ("tpb", .num c.tpb), ("offset", .num c.offset),
    ("notes", .arr (c.notes.map eventToJson))]

/-- Recover a note type from its string. -/
def NoteType.ofStr (s : String) : Option NoteType :=
  if s = "normal" then some .normal
  else if s = "critical" then some .critical
  else if s = "long" then some .long
  else none

/-- Parse one event back from plain data: objects whose `"type"` is
`"_bpm"` are tempo events, all others are note events whose `"duration"`
field is optional. -/
def eventFromJson (j : Json) : Option ChartEvent :=
  match j.getField "type" with
  | some (.str s) =>
    if s = "_bpm" then do
      let tick ← (← j.getField "tick").asNat
      let b ← (← j.getField "bpm").asRat
      some (.bpm tick b)
    else do
      let ty ← NoteType.ofStr s
      let lane ← (← j.getField "lane").asInt
      let tick ← (← j.getField "tick").asNat
      match j.getField "duration" with
      | some dj => do
        let dur ← dj.asInt
        some (.note lane tick ty (some dur))
      | none => some (.note lane tick ty none)
  | _ => none

/-- Parse a list of events. -/
def eventsFromJson : List Json → Option (List ChartEvent)
  | [] => some []
  | j :: rest => do
    let e ← eventFromJson j
    let es ← eventsFromJson rest
    some (e :: es)

/-- Parse a chart back from plain data. -/
def chartFromJson (j : Json) : Option Chart := do
  let version ← (← j.getField "version").asNat
  let title ← (← j.getField "title").asStr
  let bpm ← (← j.getField "bpm").asRat
  let tpb ← (← j.getField "tpb").asNat
  let offset ← (← j.getField "offset").asNat
  let notesJ ← (← j.getField "notes").asArr
  let notes ← eventsFromJson notesJ
  some ⟨version, title, bpm, tpb, offset, notes⟩

/-- The invariant that every pitch held in `active_notes` lies in the lane
range `[NOTE_RANGE_START, NOTE_RANGE_END]`. -/
def activeInRange (s : ConvState) : Prop :=
  ∀ q a, s.active_notes q = some a → NOTE_RANGE_START ≤ q ∧ q ≤ NOTE_RANGE_END

/-- The per-event invariant maintained by the loop: lanes lie in `[0, 6]`,
tempo events sit at a positive tick, and a `duration` field always exceeds
`tpb`. -/
def goodEvent (tpb : Nat) (e : ChartEvent) : Prop :=
  (∀ lane, noteLane e = some lane → 0 ≤ lane ∧ lane ≤ 6) ∧
  (isBpmEvent e = true → 0 < eventTick e) ∧
  (∀ d, noteDuration e = some d → (tpb : ℤ) < d)

/-- The loop invariant: active pitches are in range and every emitted event
is good. -/
def goodState (tpb : Nat) (s : ConvState) : Prop :=
  activeInRange s ∧ ∀ e ∈ s.notes_data, goodEvent tpb e

/-- A concrete loop state for exercising the step theorems: tick 690, one
active note on pitch 59 started at tick 100 with velocity 127. -/
def sampleState : ConvState :=
  ⟨690, fun n => if n = 59 then some ⟨100, 127⟩ else none, []⟩

/-- A concrete loop state with no active notes. -/
def emptyState : ConvState := ⟨7, fun _ => none, []⟩

/-- A concrete loop state whose active note on pitch 55 will be closed at
its own start tick (205 = 200 + 5). -/
def tickState : ConvState :=
  ⟨200, fun n => if n = 55 then some ⟨205, 64⟩ else none, []⟩

/-- A concrete input with two tempo-change messages at the same absolute
tick 10, one per track. -/
def tempoDupMid : MidiFile :=
  ⟨480, [[⟨10, .setTempo 400000⟩], [⟨10, .setTempo 300000⟩]]⟩

/-- A concrete input whose metadata track carries two track-name
messages. -/
def twoNamesMid : MidiFile :=
  ⟨480, [[⟨0, .trackName "A"⟩, ⟨3, .trackName "B"⟩]]⟩

/-- Whether an event has exactly the composite sort key `(tk, ct)`. -/
def eventKeyIs (tk ct : Nat) (e : ChartEvent) : Bool :=
  (eventTick e == tk) && (sortCat e == ct)

end Organica

namespace Organica

/-! ### Unfolding lemmas for `step` -/

/-- A `note_off` message advances the tick then runs the note-off branch. -/
theorem step_noteOff_def (tpb : Nat) (s : ConvState) (dt p w : Nat) :
    step tpb s ⟨dt, .noteOff p w⟩ =
      stepOff tpb p { s with current_tick := s.current_tick + dt } := rfl

/-- A velocity-0 `note_on` message is handled by the note-off branch. -/
theorem step_noteOn_zero_def (tpb : Nat) (s : ConvState) (dt p : Nat) :
    step tpb s ⟨dt, .noteOn p 0⟩ =
      stepOff tpb p { s with current_tick := s.current_tick + dt } := rfl

/-- A positive-velocity `note_on` records the note when the pitch is in
range, and does nothing else. -/
theorem step_noteOn_pos_def (tpb : Nat) (s : ConvState) (dt p v : Nat)
    (hv : 0 < v) :
    step tpb s ⟨dt, .noteOn p v⟩ =
      if NOTE_RANGE_START ≤ p ∧ p ≤ NOTE_RANGE_END then
        { s with
          current_tick := s.current_tick + dt
          active_notes :=
            setActive s.active_notes p ⟨s.current_tick + dt, v⟩ }
      else { s with current_tick := s.current_tick + dt } := by
  show (if 0 < v then
      if NOTE_RANGE_START ≤ p ∧ p ≤ NOTE_RANGE_END then
        { s with
          current_tick := s.current_tick + dt
          active_notes :=
            setActive s.active_notes p ⟨s.current_tick + dt, v⟩ }
      else { s with current_tick := s.current_tick + dt }
    else stepOff tpb p { s with current_tick := s.current_tick + dt }) = _
  rw [if_pos hv]

/-- A `set_tempo` message appends a tempo event unless one already exists at
the current tick or the current tick is 0. -/
theorem step_setTempo_def (tpb : Nat) (s : ConvState) (dt x : Nat) :
    step tpb s ⟨dt, .setTempo x⟩ =
      if hasBpmAt s.notes_data (s.current_tick + dt) then
        { s with current_tick := s.current_tick + dt }
      else if 0 < s.current_tick + dt then
        { s with
          current_tick := s.current_tick + dt
          notes_data := s.notes_data ++
            [.bpm (s.current_tick + dt) (round3 (tempo2bpm x))] }
      else { s with current_tick := s.current_tick + dt } := rfl

/-- A `track_name` message only advances the tick. -/
theorem step_trackName_def (tpb : Nat) (s : ConvState) (dt : Nat)
    (n : String) :
    step tpb s ⟨dt, .trackName n⟩ =
      { s with current_tick := s.current_tick + dt } := rfl

/-- Any other meta message only advances the tick. -/
theorem step_otherMeta_def (tpb : Nat) (s : ConvState) (dt : Nat) :
    step tpb s ⟨dt, .otherMeta⟩ =
      { s with current_tick := s.current_tick + dt } := rfl

/-- Any other channel message only advances the tick. -/
theorem step_otherChannel_def (tpb : Nat) (s : ConvState) (dt : Nat) :
    step tpb s ⟨dt, .otherChannel⟩ =
      { s with current_tick := s.current_tick + dt } := rfl

/-- A note-off for a pitch with no active state leaves the state as is. -/
theorem stepOff_eq_none (tpb note : Nat) (s : ConvState)
    (h : s.active_notes note = none) : stepOff tpb note s = s := by
  unfold stepOff
  rw [h]

/-- A note-off for a pitch with an active state pops it and, when the
duration is nonzero, appends the classified note event. -/
theorem stepOff_eq_some (tpb note : Nat) (s : ConvState) (a : ActiveNote)
    (h : s.active_notes note = some a) :
    stepOff tpb note s =
      if (s.current_tick : ℤ) - (a.tick : ℤ) = 0 then
        { s with active_notes := popActive s.active_notes note }
      else
        { s with
          active_notes := popActive s.active_notes note
          notes_data := s.notes_data ++
            [if (tpb : ℤ) < (s.current_tick : ℤ) - (a.tick : ℤ) then
               ChartEvent.note ((note : ℤ) - (NOTE_RANGE_START : ℤ)) a.tick
                 .long (some ((s.current_tick : ℤ) - (a.tick : ℤ)))
             else
               ChartEvent.note ((note : ℤ) - (NOTE_RANGE_START : ℤ)) a.tick
                 (if CRITICAL_VELOCITY_THRESHOLD ≤ a.velocity then .critical
                  else .normal) none] } := by
  unfold stepOff
  rw [h]

/-! ### The loop invariant -/

/-- Removing a pitch keeps the active map inside the lane range. -/
theorem popActive_in_range (s : ConvState) (note : Nat)
    (h : activeInRange s) :
    ∀ q a, popActive s.active_notes note q = some a →
      NOTE_RANGE_START ≤ q ∧ q ≤ NOTE_RANGE_END := by
  intro q a hq
  unfold popActive at hq
  split at hq
  · simp at hq
  · exact h q a hq

/-- The note-off branch preserves the loop invariant. -/
theorem stepOff_good (tpb note : Nat) (s : ConvState) (h : goodState tpb s) :
    goodState tpb (stepOff tpb note s) := by
  obtain ⟨hact, hev⟩ := h
  cases ha : s.active_notes note with
  | none =>
    rw [stepOff_eq_none tpb note s ha]
    exact ⟨hact, hev⟩
  | some a =>
    rw [stepOff_eq_some tpb note s a ha]
    have hrange := hact note a ha
    split
    · exact ⟨fun q b hq => popActive_in_range s note hact q b hq, hev⟩
    · refine ⟨fun q b hq => popActive_in_range s note hact q b hq, ?_⟩
      intro e he
      rcases List.mem_append.mp he with h1 | h2
      · exact hev e h1
      · obtain rfl := List.mem_singleton.mp h2
        simp only [NOTE_RANGE_START, NOTE_RANGE_END] at hrange
        split
        · refine ⟨?_, ?_, ?_⟩
          · intro lane hl
            simp only [noteLane, Option.some.injEq] at hl
            simp only [NOTE_RANGE_START] at hl
            omega
          · intro hb
            simp [isBpmEvent] at hb
          · intro d hd
            simp only [noteDuration, Option.some.injEq] at hd
            omega
        · refine ⟨?_, ?_, ?_⟩
          · intro lane hl
            simp only [noteLane, Option.some.injEq] at hl
            simp only [NOTE_RANGE_START] at hl
            omega
          · intro hb
            simp [isBpmEvent] at hb
          · intro d hd
            simp [noteDuration] at hd

/-- One loop iteration preserves the loop invariant. -/
theorem step_good (tpb : Nat) (s : ConvState) (m : Msg)
    (h : goodState tpb s) : goodState tpb (step tpb s m) := by
  obtain ⟨dt, k⟩ := m
  cases k with
  | setTempo x =>
    rw [step_setTempo_def]
    obtain ⟨hact, hev⟩ := h
    split
    · exact ⟨hact, hev⟩
    · split
      · next hpos =>
        refine ⟨hact, ?_⟩
        intro e he
        rcases List.mem_append.mp he with h1 | h2
        · exact hev e h1
        · obtain rfl := List.mem_singleton.mp h2
          refine ⟨?_, ?_, ?_⟩
          · intro lane hl
            simp [noteLane] at hl
          · intro _
            simpa [eventTick] using hpos
          · intro d hd
            simp [noteDuration] at hd
      · exact ⟨hact, hev⟩
  | noteOn p v =>
    rcases Nat.eq_zero_or_pos v with rfl | hv
    · rw [step_noteOn_zero_def]
      exact stepOff_good tpb p _ ⟨h.1, h.2⟩
    · rw [step_noteOn_pos_def tpb s dt p v hv]
      split
      · next hr =>
        refine ⟨?_, h.2⟩
        intro q b hq
        unfold setActive at hq
        dsimp only at hq
        split at hq
        · next hqp => exact hqp ▸ hr
        · exact h.1 q b hq
      · exact ⟨h.1, h.2⟩
  | noteOff p w =>
    rw [step_noteOff_def]
    exact stepOff_good tpb p _ ⟨h.1, h.2⟩
  | trackName n =>
    rw [step_trackName_def]
    exact ⟨h.1, h.2⟩
  | otherMeta =>
    rw [step_otherMeta_def]
    exact ⟨h.1, h.2⟩
  | otherChannel =>
    rw [step_otherChannel_def]
    exact ⟨h.1, h.2⟩

/-- Folding the loop preserves any property each step preserves. -/
theorem foldl_step_pres (tpb : Nat) (P : ConvState → Prop)
    (hstep : ∀ s m, P s → P (step tpb s m)) :
    ∀ (msgs : List Msg) (s : ConvState), P s → P (msgs.foldl (step tpb) s)
  | [], _, hs => hs
  | m :: rest, s, hs => foldl_step_pres tpb P hstep rest _ (hstep s m hs)

/-- The initial state satisfies the loop invariant. -/
theorem initState_good (tpb : Nat) : goodState tpb initState := by
  constructor
  · intro q a hq
    simp [initState] at hq
  · intro e he
    simp [initState] at he

/-- Every event of a produced chart satisfies the per-event invariant. -/
theorem chart_notes_good (dflt : String) (mid : MidiFile) :
    ∀ e ∈ (midi_to_json_score dflt mid).notes,
      goodEvent mid.ticks_per_beat e := by
  intro e he
  have he' : e ∈ (rawNotesData mid.ticks_per_beat mid.tracks).mergeSort
      eventLE := he
  have h1 : e ∈ rawNotesData mid.ticks_per_beat mid.tracks :=
    List.mem_mergeSort.mp he'
  have hg : goodState mid.ticks_per_beat
      ((merge_tracks mid.tracks).foldl (step mid.ticks_per_beat) initState) :=
    foldl_step_pres mid.ticks_per_beat (goodState mid.ticks_per_beat)
      (fun s m hsm => step_good mid.ticks_per_beat s m hsm)
      (merge_tracks mid.tracks) initState
      (initState_good mid.ticks_per_beat)
  exact hg.2 e h1

/-! ### Claim theorems -/

/-- C1: for a matched note candidate with start tick `stick`, velocity `v`,
pitch `p` (lane `p − 53`) and positive duration `d`, closed at absolute
tick `current_tick + dt` in a file with ticks-per-beat `tpb`: if `d > tpb`
the emitted event is `{lane, tick: stick, long, duration: d}` regardless of
`v`; otherwise it is critical when `v ≥ 120` and normal when `v < 120`,
with no duration field.  Both forms of note-off (a `note_off` message and a
velocity-0 `note_on`) emit the same event. -/
theorem note_candidate_classification (tpb : Nat) (s : ConvState)
    (dt p w stick v : Nat) (d : ℤ)
    (hact : s.active_notes p = some ⟨stick, v⟩)
    (hd : d = ((s.current_tick + dt : Nat) : ℤ) - (stick : ℤ))
    (hpos : 0 < d) :
    (step tpb s ⟨dt, .noteOff p w⟩).notes_data = s.notes_data ++
      [if (tpb : ℤ) < d then
         ChartEvent.note ((p : ℤ) - 53) stick .long (some d)
       else if 120 ≤ v then
         ChartEvent.note ((p : ℤ) - 53) stick .critical none
       else ChartEvent.note ((p : ℤ) - 53) stick .normal none] ∧
    (step tpb s ⟨dt, .noteOn p 0⟩).notes_data = s.notes_data ++
      [if (tpb : ℤ) < d then
         ChartEvent.note ((p : ℤ) - 53) stick .long (some d)
       else if 120 ≤ v then
         ChartEvent.note ((p : ℤ) - 53) stick .critical none
       else ChartEvent.note ((p : ℤ) - 53) stick .normal none] := by
  rw [step_noteOff_def, step_noteOn_zero_def]
  have hmain : (stepOff tpb p
        { s with current_tick := s.current_tick + dt }).notes_data =
      s.notes_data ++
        [if (tpb : ℤ) < d then
           ChartEvent.note ((p : ℤ) - 53) stick .long (some d)
         else if 120 ≤ v then
           ChartEvent.note ((p : ℤ) - 53) stick .critical none
         else ChartEvent.note ((p : ℤ) - 53) stick .normal none] := by
    rw [stepOff_eq_some tpb p { s with current_tick := s.current_tick + dt }
      ⟨stick, v⟩ hact]
    dsimp only
    rw [← hd]
    rw [if_neg (by omega)]
    simp only [CRITICAL_VELOCITY_THRESHOLD, NOTE_RANGE_START]
    by_cases hl : (tpb : ℤ) < d
    · rw [if_pos hl, if_pos hl]
      norm_num
    · rw [if_neg hl, if_neg hl]
      by_cases hv : 120 ≤ v
      · rw [if_pos hv, if_pos hv]
        norm_num
      · rw [if_neg hv, if_neg hv]
        norm_num
  exact ⟨hmain, hmain⟩

/-- Witness for C1: in `sampleState` (active note on pitch 59, start tick
100, velocity 127) a note-off at tick 700 with `tpb = 480` emits the long
note of spec scenario 7. -/
theorem note_candidate_classification_witness :
    (step 480 sampleState ⟨10, .noteOff 59 0⟩).notes_data =
      [ChartEvent.note 6 100 .long (some 600)] ∧
    (step 480 sampleState ⟨10, .noteOn 59 0⟩).notes_data =
      [ChartEvent.note 6 100 .long (some 600)] :=
  note_candidate_classification 480 sampleState 10 59 0 100 127 600 rfl
    (by decide) (by decide)

/-- C7: a positive-velocity note-on for an in-range pitch that already has
an active note replaces the earlier state with
`{start_tick: current_tick, velocity}`, emits nothing, and leaves every
other pitch untouched (the earlier note-on is silently lost). -/
theorem retrigger_overwrite (tpb : Nat) (s : ConvState) (dt p v : Nat)
    (a : ActiveNote) (hv : 0 < v) (hlo : 53 ≤ p) (hhi : p ≤ 59)
    (_hact : s.active_notes p = some a) :
    (step tpb s ⟨dt, .noteOn p v⟩).active_notes p =
      some ⟨s.current_tick + dt, v⟩ ∧
    (step tpb s ⟨dt, .noteOn p v⟩).notes_data = s.notes_data ∧
    ∀ q, q ≠ p →
      (step tpb s ⟨dt, .noteOn p v⟩).active_notes q = s.active_notes q := by
  rw [step_noteOn_pos_def tpb s dt p v hv, if_pos ⟨hlo, hhi⟩]
  refine ⟨?_, rfl, ?_⟩
  · dsimp only
    unfold setActive
    simp
  · intro q hq
    dsimp only
    unfold setActive
    simp [hq]

/-- Witness for C7: retriggering pitch 59 in `sampleState` with velocity
100 at tick 700 overwrites the active state, emits nothing and leaves
pitch 58 alone. -/
theorem retrigger_overwrite_witness :
    (step 480 sampleState ⟨10, .noteOn 59 100⟩).active_notes 59 =
      some ⟨700, 100⟩ ∧
    (step 480 sampleState ⟨10, .noteOn 59 100⟩).notes_data = [] ∧
    (step 480 sampleState ⟨10, .noteOn 59 100⟩).active_notes 58 =
      sampleState.active_notes 58 := by
  have h := retrigger_overwrite 480 sampleState 10 59 100 ⟨100, 127⟩
    (by decide) (by decide) (by decide) rfl
  exact ⟨h.1, h.2.1, h.2.2 58 (by decide)⟩

/-- C8: a note-off (or velocity-0 note-on) for a pitch with no active state
changes nothing except the running tick: the active-note mapping and the
emitted event list are exactly as before. -/
theorem unmatched_off_noop (tpb : Nat) (s : ConvState) (dt p w : Nat)
    (h : s.active_notes p = none) :
    step tpb s ⟨dt, .noteOff p w⟩ =
      { s with current_tick := s.current_tick + dt } ∧
    step tpb s ⟨dt, .noteOn p 0⟩ =
      { s with current_tick := s.current_tick + dt } := by
  have hoff := stepOff_eq_none tpb p
    { s with current_tick := s.current_tick + dt } h
  exact ⟨by rw [step_noteOff_def]; exact hoff,
    by rw [step_noteOn_zero_def]; exact hoff⟩

/-- Witness for C8: an unmatched note-off on pitch 55 in `emptyState` only
advances the tick. -/
theorem unmatched_off_noop_witness :
    step 480 emptyState ⟨5, .noteOff 55 64⟩ = ⟨12, fun _ => none, []⟩ ∧
    step 480 emptyState ⟨5, .noteOn 55 0⟩ = ⟨12, fun _ => none, []⟩ :=
  unmatched_off_noop 480 emptyState 5 55 64 rfl

/-- C2: tempo events are never emitted at tick 0 (every `_bpm` event in the
output has a positive tick), and processing a tempo-change message whose
absolute tick is 0 leaves both the emitted event list and the active-note
mapping unchanged — the tick-0 tempo can affect nothing but the header's
`bpm`. -/
theorem tick0_tempo_never_emitted :
    (∀ (dflt : String) (mid : MidiFile) (e : ChartEvent),
        e ∈ (midi_to_json_score dflt mid).notes → isBpmEvent e = true →
        0 < eventTick e) ∧
    (∀ (tpb : Nat) (s : ConvState) (dt x : Nat),
        s.current_tick + dt = 0 →
        (step tpb s ⟨dt, .setTempo x⟩).notes_data = s.notes_data ∧
        (step tpb s ⟨dt, .setTempo x⟩).active_notes = s.active_notes) := by
  constructor
  · intro dflt mid e he hb
    exact ((chart_notes_good dflt mid e he).2.1) hb
  · intro tpb s dt x h0
    rw [step_setTempo_def]
    split
    · exact ⟨rfl, rfl⟩
    · rw [if_neg (by omega)]
      exact ⟨rfl, rfl⟩

/-- C3: every note event of a produced chart has a lane in `[0, 6]`; a note
event emitted by the note-off branch always has lane `pitch − 53`; and when
the pitch is outside `[53, 59]` neither a note-on nor (given the invariant
that the active map only holds in-range pitches) a note-off can emit any
event. -/
theorem lanes_in_range :
    (∀ (dflt : String) (mid : MidiFile) (e : ChartEvent) (lane : ℤ),
        e ∈ (midi_to_json_score dflt mid).notes → noteLane e = some lane →
        0 ≤ lane ∧ lane ≤ 6) ∧
    (∀ (tpb : Nat) (s : ConvState) (dt p w : Nat),
        (step tpb s ⟨dt, .noteOff p w⟩).notes_data = s.notes_data ∨
        ∃ stick ty d_,
          (step tpb s ⟨dt, .noteOff p w⟩).notes_data =
            s.notes_data ++ [.note ((p : ℤ) - 53) stick ty d_]) ∧
    (∀ (tpb : Nat) (s : ConvState) (dt p v w : Nat),
        (p < 53 ∨ 59 < p) → activeInRange s →
        (step tpb s ⟨dt, .noteOn p v⟩).notes_data = s.notes_data ∧
        (step tpb s ⟨dt, .noteOff p w⟩).notes_data = s.notes_data) := by
  refine ⟨?_, ?_, ?_⟩
  · intro dflt mid e lane he hl
    exact (chart_notes_good dflt mid e he).1 lane hl
  · intro tpb s dt p w
    rw [step_noteOff_def]
    cases ha : ({ s with current_tick := s.current_tick + dt} :
        ConvState).active_notes p with
    | none =>
      left
      rw [stepOff_eq_none tpb p _ ha]
    | some a =>
      rw [stepOff_eq_some tpb p _ a ha]
      split
      · left; rfl
      · right
        refine ⟨a.tick, ?_, ?_, ?_⟩
        · exact if ((tpb : ℤ) <
            ((s.current_tick + dt : Nat) : ℤ) - (a.tick : ℤ)) then .long
            else if CRITICAL_VELOCITY_THRESHOLD ≤ a.velocity then .critical
            else .normal
        · exact if ((tpb : ℤ) <
            ((s.current_tick + dt : Nat) : ℤ) - (a.tick : ℤ)) then
            some (((s.current_tick + dt : Nat) : ℤ) - (a.tick : ℤ)) else none
        · dsimp only
          simp only [NOTE_RANGE_START, Nat.cast_ofNat]
          split
          · rfl
          · rfl
  · intro tpb s dt p v w hout hinv
    have hnone : s.active_notes p = none := by
      cases ha : s.active_notes p with
      | none => rfl
      | some a =>
        have := hinv p a ha
        simp only [NOTE_RANGE_START, NOTE_RANGE_END] at this
        omega
    constructor
    · rcases Nat.eq_zero_or_pos v with rfl | hv
      · rw [step_noteOn_zero_def, stepOff_eq_none tpb p
          { s with current_tick := s.current_tick + dt } hnone]
      · rw [step_noteOn_pos_def tpb s dt p v hv]
        rw [if_neg (by simp only [NOTE_RANGE_START, NOTE_RANGE_END]; omega)]
    · rw [step_noteOff_def, stepOff_eq_none tpb p
        { s with current_tick := s.current_tick + dt } hnone]

/-- C4: no emitted note event carries duration 0 (its duration, when
present, exceeds `tpb ≥ 0`), and a note-off (or velocity-0 note-on)
matching an active note at the same absolute tick removes the active state
and emits nothing. -/
theorem no_zero_duration_notes :
    (∀ (dflt : String) (mid : MidiFile) (e : ChartEvent),
        e ∈ (midi_to_json_score dflt mid).notes →
        noteDuration e ≠ some 0) ∧
    (∀ (tpb : Nat) (s : ConvState) (dt p w v : Nat),
        s.active_notes p = some ⟨s.current_tick + dt, v⟩ →
        (step tpb s ⟨dt, .noteOff p w⟩).active_notes p = none ∧
        (step tpb s ⟨dt, .noteOff p w⟩).notes_data = s.notes_data ∧
        (step tpb s ⟨dt, .noteOn p 0⟩).active_notes p = none ∧
        (step tpb s ⟨dt, .noteOn p 0⟩).notes_data = s.notes_data) := by
  constructor
  · intro dflt mid e he hd0
    have := (chart_notes_good dflt mid e he).2.2 0 hd0
    omega
  · intro tpb s dt p w v hact
    have hoff : stepOff tpb p { s with current_tick := s.current_tick + dt } =
        { s with
          current_tick := s.current_tick + dt
          active_notes := popActive s.active_notes p } := by
      rw [stepOff_eq_some tpb p
        { s with current_tick := s.current_tick + dt }
        ⟨s.current_tick + dt, v⟩ hact]
      rw [if_pos (by dsimp only; omega)]
    rw [step_noteOff_def, step_noteOn_zero_def, hoff]
    refine ⟨?_, rfl, ?_, rfl⟩
    · dsimp only
      unfold popActive
      simp
    · dsimp only
      unfold popActive
      simp

/-! ### Sorting: the comparator of line 111 -/

/-- The event comparator is transitive. -/
theorem eventLE_trans (a b c : ChartEvent) (h1 : eventLE a b = true)
    (h2 : eventLE b c = true) : eventLE a c = true := by
  simp only [eventLE, decide_eq_true_eq] at *
  omega

/-- The event comparator is total. -/
theorem eventLE_total (a b : ChartEvent) :
    (eventLE a b || eventLE b a) = true := by
  simp only [eventLE, Bool.or_eq_true, decide_eq_true_eq]
  omega

/-- The merge comparator is transitive. -/
theorem msgTimeLE_trans (a b c : Msg) (h1 : msgTimeLE a b = true)
    (h2 : msgTimeLE b c = true) : msgTimeLE a c = true := by
  simp only [msgTimeLE, decide_eq_true_eq] at *
  omega

/-- The merge comparator is total. -/
theorem msgTimeLE_total (a b : Msg) :
    (msgTimeLE a b || msgTimeLE b a) = true := by
  simp only [msgTimeLE, Bool.or_eq_true, decide_eq_true_eq]
  omega

/-- The merged stream is sorted by absolute tick. -/
theorem mergedAbs_sorted (tracks : List (List Msg)) :
    (mergedAbs tracks).Pairwise (fun a b => a.time ≤ b.time) := by
  have h := List.sorted_mergeSort msgTimeLE_trans msgTimeLE_total
    ((tracks.map (toAbstime 0)).flatten)
  exact h.imp fun hab => by simpa [msgTimeLE] using hab

/-- Re-accumulating the delta times of a sorted absolute-time stream
recovers the absolute times. -/
theorem toAbstime_toReltime :
    ∀ (l : List Msg) (now : Nat), (∀ m ∈ l, now ≤ m.time) →
      l.Pairwise (fun a b => a.time ≤ b.time) →
      toAbstime now (toReltime now l) = l
  | [], _, _, _ => rfl
  | m :: rest, now, hlo, hpw => by
    have hm : now ≤ m.time := hlo m (List.mem_cons_self m rest)
    have h1 : now + (m.time - now) = m.time := Nat.add_sub_cancel' hm
    show { m with time := now + (m.time - now) } ::
        toAbstime (now + (m.time - now)) (toReltime m.time rest) = m :: rest
    have h2 : toAbstime m.time (toReltime m.time rest) = rest :=
      toAbstime_toReltime rest m.time
        (fun x hx => List.rel_of_pairwise_cons hpw hx)
        (List.pairwise_cons.mp hpw).2
    rw [h1, h2]

/-- The absolute times of the merged delta-time track are the sorted merged
stream. -/
theorem toAbstime_merge_tracks (tracks : List (List Msg)) :
    toAbstime 0 (merge_tracks tracks) = mergedAbs tracks :=
  toAbstime_toReltime (mergedAbs tracks) 0 (fun m _ => Nat.zero_le m.time)
    (mergedAbs_sorted tracks)

/-- C5: the produced `notes` sequence is pairwise ordered by the composite
key `(tick, category)` (category 0 for tempo events, 1 for notes); hence at
equal ticks every tempo event precedes every note event; and for each fixed
composite key the subsequence of events with that key equals the emission
order (`rawNotesData`), i.e. the sort is stable. -/
theorem events_sorted_stable (dflt : String) (mid : MidiFile) :
    ((midi_to_json_score dflt mid).notes).Pairwise
      (fun a b => eventLE a b = true) ∧
    ((midi_to_json_score dflt mid).notes).Pairwise
      (fun a b => eventTick a = eventTick b → isBpmEvent b = true →
        isBpmEvent a = true) ∧
    ∀ tk ct : Nat,
      ((midi_to_json_score dflt mid).notes).filter (eventKeyIs tk ct) =
        (rawNotesData mid.ticks_per_beat mid.tracks).filter
          (eventKeyIs tk ct) := by
  have h1 : ((rawNotesData mid.ticks_per_beat mid.tracks).mergeSort
      eventLE).Pairwise (fun a b => eventLE a b = true) :=
    List.sorted_mergeSort eventLE_trans eventLE_total
      (rawNotesData mid.ticks_per_beat mid.tracks)
  refine ⟨h1, ?_, ?_⟩
  · refine h1.imp ?_
    intro a b hab htick hb
    simp only [eventLE, decide_eq_true_eq] at hab
    rcases hab with hlt | ⟨_, hcat⟩
    · omega
    · simp only [sortCat, hb, if_true] at hcat
      by_cases hba : isBpmEvent a = true
      · exact hba
      · simp only [hba] at hcat
        simp at hcat
  · intro tk ct
    have hpw : ((rawNotesData mid.ticks_per_beat mid.tracks).filter
        (eventKeyIs tk ct)).Pairwise (fun a b => eventLE a b = true) := by
      apply List.pairwise_of_forall_mem_list
      intro a ha b hb
      have ha' := (List.mem_filter.mp ha).2
      have hb' := (List.mem_filter.mp hb).2
      simp only [eventKeyIs, Bool.and_eq_true, beq_iff_eq] at ha' hb'
      simp only [eventLE, decide_eq_true_eq]
      omega
    have hsub : List.Sublist
        ((rawNotesData mid.ticks_per_beat mid.tracks).filter
          (eventKeyIs tk ct))
        ((rawNotesData mid.ticks_per_beat mid.tracks).mergeSort eventLE) :=
      List.sublist_mergeSort eventLE_trans eventLE_total hpw
        (List.filter_sublist _)
    have hsub2 : List.Sublist
        ((rawNotesData mid.ticks_per_beat mid.tracks).filter
          (eventKeyIs tk ct))
        (((rawNotesData mid.ticks_per_beat mid.tracks).mergeSort
          eventLE).filter (eventKeyIs tk ct)) := by
      have h5 := hsub.filter (eventKeyIs tk ct)
      simpa using h5
    have hperm : List.Perm
        (((rawNotesData mid.ticks_per_beat mid.tracks).mergeSort
          eventLE).filter (eventKeyIs tk ct))
        ((rawNotesData mid.ticks_per_beat mid.tracks).filter
          (eventKeyIs tk ct)) :=
      (List.mergeSort_perm _ _).filter _
    exact (hsub2.eq_of_length hperm.length_eq.symm).symm

/-! ### Tempo-event deduplication -/

/-- When no tempo event sits at tick `t`, the tick-`t` tempo filter is
empty. -/
theorem filter_bpmAt_of_not_hasBpmAt {l : List ChartEvent} {t : Nat}
    (h : ¬hasBpmAt l t = true) : l.filter (isBpmAt t) = [] := by
  rw [Bool.not_eq_true] at h
  simp only [hasBpmAt, List.any_eq_false] at h
  exact List.filter_eq_nil_iff.mpr h

/-- When a tempo event sits at tick `t`, the tick-`t` tempo filter is
nonempty. -/
theorem filter_bpmAt_of_hasBpmAt {l : List ChartEvent} {t : Nat}
    (h : hasBpmAt l t = true) : (l.filter (isBpmAt t)).isEmpty = false := by
  simp only [hasBpmAt, List.any_eq_true] at h
  obtain ⟨e, he, hp⟩ := h
  rw [List.isEmpty_eq_false]
  intro hnil
  have : e ∈ l.filter (isBpmAt t) := List.mem_filter.mpr ⟨he, hp⟩
  rw [hnil] at this
  simp at this

/-- The note-off branch does not change the tempo events nor the tick. -/
theorem stepOff_filter_bpmAt (tpb note t : Nat) (s : ConvState) :
    ((stepOff tpb note s).notes_data).filter (isBpmAt t) =
      s.notes_data.filter (isBpmAt t) ∧
    (stepOff tpb note s).current_tick = s.current_tick := by
  cases ha : s.active_notes note with
  | none =>
    rw [stepOff_eq_none tpb note s ha]
    exact ⟨rfl, rfl⟩
  | some a =>
    rw [stepOff_eq_some tpb note s a ha]
    split
    · exact ⟨rfl, rfl⟩
    · refine ⟨?_, rfl⟩
      dsimp only
      rw [List.filter_append]
      split <;> simp [isBpmAt, isBpmEvent]

/-- The tick-`t` tempo events accumulated by the loop: the events already
present, plus — when none was present yet — the first tempo change of the
remaining stream whose absolute tick is `t` (for `t > 0`). -/
theorem foldl_filter_bpmAt (tpb t : Nat) (ht : 0 < t) :
    ∀ (msgs : List Msg) (s : ConvState),
      ((msgs.foldl (step tpb) s).notes_data).filter (isBpmAt t) =
        s.notes_data.filter (isBpmAt t) ++
          (if (s.notes_data.filter (isBpmAt t)).isEmpty then
            (match firstTempoFrom t s.current_tick msgs with
             | some tempo => [ChartEvent.bpm t (round3 (tempo2bpm tempo))]
             | none => [])
           else []) := by
  intro msgs
  induction msgs with
  | nil =>
    intro s
    simp only [List.foldl_nil, firstTempoFrom]
    split <;> simp
  | cons m rest ih =>
    intro s
    obtain ⟨dt, k⟩ := m
    rw [List.foldl_cons, ih (step tpb s ⟨dt, k⟩)]
    cases k with
    | setTempo x =>
      rw [step_setTempo_def]
      by_cases hb : hasBpmAt s.notes_data (s.current_tick + dt) = true
      · rw [if_pos hb]
        dsimp only
        show _ = _ ++ (if _ then
          (match firstTempoFrom t s.current_tick (⟨dt, .setTempo x⟩ :: rest)
           with
           | some tempo => [ChartEvent.bpm t (round3 (tempo2bpm tempo))]
           | none => []) else [])
        have hftf : firstTempoFrom t s.current_tick
            (⟨dt, .setTempo x⟩ :: rest) =
            if s.current_tick + dt = t then some x
            else firstTempoFrom t (s.current_tick + dt) rest := rfl
        rw [hftf]
        by_cases htt : s.current_tick + dt = t
        · rw [htt] at hb
          have hne := filter_bpmAt_of_hasBpmAt hb
          rw [hne]
          simp
        · rw [if_neg htt]
      · rw [if_neg hb]
        by_cases hpos : 0 < s.current_tick + dt
        · rw [if_pos hpos]
          dsimp only
          show _ = _ ++ (if _ then
            (match firstTempoFrom t s.current_tick
              (⟨dt, .setTempo x⟩ :: rest) with
             | some tempo => [ChartEvent.bpm t (round3 (tempo2bpm tempo))]
             | none => []) else [])
          have hftf : firstTempoFrom t s.current_tick
              (⟨dt, .setTempo x⟩ :: rest) =
              if s.current_tick + dt = t then some x
              else firstTempoFrom t (s.current_tick + dt) rest := rfl
          rw [hftf, List.filter_append]
          by_cases htt : s.current_tick + dt = t
          · rw [if_pos htt]
            rw [htt] at hb
            have hnil := filter_bpmAt_of_not_hasBpmAt hb
            rw [htt, hnil]
            simp [isBpmAt, isBpmEvent, eventTick]
          · rw [if_neg htt]
            have hzero : [ChartEvent.bpm (s.current_tick + dt)
                (round3 (tempo2bpm x))].filter (isBpmAt t) = [] := by
              simp [isBpmAt, isBpmEvent, eventTick, htt]
            rw [hzero, List.append_nil]
        · rw [if_neg hpos]
          dsimp only
          show _ = _ ++ (if _ then
            (match firstTempoFrom t s.current_tick
              (⟨dt, .setTempo x⟩ :: rest) with
             | some tempo => [ChartEvent.bpm t (round3 (tempo2bpm tempo))]
             | none => []) else [])
          have hftf : firstTempoFrom t s.current_tick
              (⟨dt, .setTempo x⟩ :: rest) =
              if s.current_tick + dt = t then some x
              else firstTempoFrom t (s.current_tick + dt) rest := rfl
          have hne : ¬(s.current_tick + dt = t) := by omega
          rw [hftf, if_neg hne]
    | noteOn p v =>
      rcases Nat.eq_zero_or_pos v with rfl | hv
      · rw [step_noteOn_zero_def]
        have h := stepOff_filter_bpmAt tpb p t
          { s with current_tick := s.current_tick + dt }
        rw [h.1, h.2]
        rfl
      · rw [step_noteOn_pos_def tpb s dt p v hv]
        split <;> rfl
    | noteOff p w =>
      rw [step_noteOff_def]
      have h := stepOff_filter_bpmAt tpb p t
        { s with current_tick := s.current_tick + dt }
      rw [h.1, h.2]
      rfl
    | trackName n =>
      rw [step_trackName_def]
      rfl
    | otherMeta =>
      rw [step_otherMeta_def]
      rfl
    | otherChannel =>
      rw [step_otherChannel_def]
      rfl

/-- `firstTempoFrom` finds the head of the tick-`t` tempo messages of the
absolutised stream. -/
theorem firstTempoFrom_eq_head (t : Nat) :
    ∀ (msgs : List Msg) (now : Nat),
      firstTempoFrom t now msgs = (tempoMsgsAt t (toAbstime now msgs)).head?
  | [], _ => rfl
  | m :: rest, now => by
    obtain ⟨dt, k⟩ := m
    have ih := firstTempoFrom_eq_head t rest (now + dt)
    cases k with
    | setTempo x =>
      show (if now + dt = t then some x
          else firstTempoFrom t (now + dt) rest) = _
      by_cases h : now + dt = t
      · rw [if_pos h]
        simp only [toAbstime, tempoMsgsAt, List.filterMap_cons, tempoAt]
        rw [if_pos h]
        rfl
      · rw [if_neg h]
        simp only [toAbstime, tempoMsgsAt, List.filterMap_cons, tempoAt]
        rw [if_neg h]
        exact ih
    | trackName n =>
      show firstTempoFrom t (now + dt) rest = _
      simp only [toAbstime, tempoMsgsAt, List.filterMap_cons, tempoAt]
      rw [ite_self]
      exact ih
    | noteOn p v =>
      show firstTempoFrom t (now + dt) rest = _
      simp only [toAbstime, tempoMsgsAt, List.filterMap_cons, tempoAt]
      rw [ite_self]
      exact ih
    | noteOff p w =>
      show firstTempoFrom t (now + dt) rest = _
      simp only [toAbstime, tempoMsgsAt, List.filterMap_cons, tempoAt]
      rw [ite_self]
      exact ih
    | otherMeta =>
      show firstTempoFrom t (now + dt) rest = _
      simp only [toAbstime, tempoMsgsAt, List.filterMap_cons, tempoAt]
      rw [ite_self]
      exact ih
    | otherChannel =>
      show firstTempoFrom t (now + dt) rest = _
      simp only [toAbstime, tempoMsgsAt, List.filterMap_cons, tempoAt]
      rw [ite_self]
      exact ih

/-- C6: when two or more tempo-change messages occur at the same absolute
tick `t > 0` in the merged stream, the output contains exactly one tempo
event at tick `t`, and it carries the bpm of the first such message; later
ones at the same tick are discarded. -/
theorem duplicate_tempo_first_wins (dflt : String) (mid : MidiFile)
    (t v v' : Nat) (vs : List Nat) (ht : 0 < t)
    (hts : tempoMsgsAt t (mergedAbs mid.tracks) = v :: v' :: vs) :
    ((midi_to_json_score dflt mid).notes).filter (isBpmAt t) =
      [ChartEvent.bpm t (round3 (tempo2bpm v))] := by
  have hraw : (rawNotesData mid.ticks_per_beat mid.tracks).filter
      (isBpmAt t) = [ChartEvent.bpm t (round3 (tempo2bpm v))] := by
    unfold rawNotesData
    rw [foldl_filter_bpmAt mid.ticks_per_beat t ht (merge_tracks mid.tracks)
      initState]
    have hfirst : firstTempoFrom t 0 (merge_tracks mid.tracks) = some v := by
      rw [firstTempoFrom_eq_head t (merge_tracks mid.tracks) 0,
        toAbstime_merge_tracks, hts]
      rfl
    rw [show (initState : ConvState).current_tick = 0 from rfl,
      show (initState : ConvState).notes_data = ([] : List ChartEvent)
        from rfl, hfirst]
    simp
  have hperm : List.Perm
      (((rawNotesData mid.ticks_per_beat mid.tracks).mergeSort
        eventLE).filter (isBpmAt t))
      ((rawNotesData mid.ticks_per_beat mid.tracks).filter (isBpmAt t)) :=
    (List.mergeSort_perm _ _).filter _
  rw [hraw] at hperm
  exact hperm.eq_singleton

/-- Witness for C6: `tempoDupMid` has tempo changes 400000 and 300000 both
at tick 10; the output keeps exactly the first (bpm 150). -/
theorem duplicate_tempo_first_wins_witness :
    ((midi_to_json_score "w" tempoDupMid).notes).filter (isBpmAt 10) =
      [ChartEvent.bpm 10 (round3 (tempo2bpm 400000))] :=
  duplicate_tempo_first_wins "w" tempoDupMid 10 400000 300000 []
    (by decide)
    (by
      show tempoMsgsAt 10
        (((tempoDupMid.tracks.map (toAbstime 0)).flatten).mergeSort
          msgTimeLE) = _
      rw [List.mergeSort_of_sorted (by decide)]
      rfl)

/-! ### Serialization round trip -/

/-- Reading back a serialized `Nat`. -/
theorem asNat_num (n : Nat) : (Json.num (n : ℚ)).asNat = some n := by
  simp [Json.asNat]

/-- Reading back a serialized `Int`. -/
theorem asInt_num (i : ℤ) : (Json.num (i : ℚ)).asInt = some i := by
  simp [Json.asInt]

/-- Parsing inverts serialization on single events. -/
theorem eventFromJson_eventToJson (e : ChartEvent) :
    eventFromJson (eventToJson e) = some e := by
  cases e with
  | bpm t b =>
    simp [eventToJson, eventFromJson, Json.getField, List.lookup, asNat_num,
      Json.asRat]
  | note l t ty d =>
    cases ty <;> cases d <;>
      simp [eventToJson, eventFromJson, Json.getField, List.lookup,
        NoteType.str, NoteType.ofStr, asNat_num, asInt_num]

/-- Parsing inverts serialization on event lists. -/
theorem eventsFromJson_map (l : List ChartEvent) :
    eventsFromJson (l.map eventToJson) = some l := by
  induction l with
  | nil => rfl
  | cons e rest ih =>
    simp [eventsFromJson, eventFromJson_eventToJson e, ih]

/-- Parsing inverts serialization on whole charts. -/
theorem chartFromJson_chartToJson (c : Chart) :
    chartFromJson (chartToJson c) = some c := by
  obtain ⟨v, ti, b, tp, off, ns⟩ := c
  simp [chartToJson, chartFromJson, Json.getField, List.lookup, asNat_num,
    Json.asRat, Json.asStr, Json.asArr, eventsFromJson_map]

/-- C9: serializing a produced chart to the output structure and re-parsing
that structure as plain data yields a value field-for-field equal to the
original chart (the output format is lossless for the chart model). -/
theorem chart_roundtrip (dflt : String) (mid : MidiFile) :
    chartFromJson (chartToJson (midi_to_json_score dflt mid)) =
      some (midi_to_json_score dflt mid) :=
  chartFromJson_chartToJson (midi_to_json_score dflt mid)

/-! ### Title selection -/

/-- The title after one header-scan step: a track-name message installs its
name, anything else keeps the current title. -/
theorem headerStep_title (h : HeaderState) (msg : Msg) :
    (headerStep h msg).title =
      match msg.kind with
      | .trackName n => n
      | _ => h.title := by
  obtain ⟨dt, k⟩ := msg
  cases k with
  | setTempo x =>
    show (if h.found_first_tempo then h
      else { h with initial_bpm := round3 (tempo2bpm x),
                    found_first_tempo := true }).title = h.title
    split <;> rfl
  | trackName n => rfl
  | noteOn p v => rfl
  | noteOff p w => rfl
  | otherMeta => rfl
  | otherChannel => rfl

/-- The title after the header scan is the last track-name, or the default
when there is none. -/
theorem foldl_headerStep_title :
    ∀ (msgs : List Msg) (h : HeaderState),
      (msgs.foldl headerStep h).title = (trackNames msgs).getLastD h.title
  | [], _ => rfl
  | m :: rest, h => by
    obtain ⟨dt, k⟩ := m
    rw [List.foldl_cons,
      foldl_headerStep_title rest (headerStep h ⟨dt, k⟩),
      headerStep_title h ⟨dt, k⟩]
    cases k with
    | trackName n =>
      show (trackNames rest).getLastD n =
        (n :: trackNames rest).getLastD h.title
      rw [List.getLastD_cons]
    | setTempo x => rfl
    | noteOn p v => rfl
    | noteOff p w => rfl
    | otherMeta => rfl
    | otherChannel => rfl

/-- C10: when track 0 carries two or more track-name messages, the chart's
title is the name of the last one — each later track-name message
overwrites the earlier. -/
theorem last_track_name_wins (dflt : String) (mid : MidiFile)
    (n₀ n₁ : String) (ns : List String)
    (hn : trackNames (mid.tracks.headD []) = n₀ :: n₁ :: ns) :
    (midi_to_json_score dflt mid).title =
      (n₀ :: n₁ :: ns).getLast (by simp) := by
  show (scanHeader dflt (mid.tracks.headD [])).title = _
  unfold scanHeader
  rw [foldl_headerStep_title (mid.tracks.headD []) ⟨120, dflt, false⟩, hn,
    List.getLastD_eq_getLast?,
    List.getLast?_eq_getLast (n₀ :: n₁ :: ns) (by simp)]
  rfl

/-- Witness for C10: `twoNamesMid` carries track names "A" then "B"; the
produced title is "B". -/
theorem last_track_name_wins_witness :
    (midi_to_json_score "d" twoNamesMid).title = "B" :=
  last_track_name_wins "d" twoNamesMid "A" "B" [] (by decide)

end Organica
